import Mathlib

/-!
Shader source splitter (`ParseShader`, `3_Shaders_and_Organization/main.cpp`)

A shallow embedding of `ParseShader` and the proofs of the properties stated
for it.

* `std::string` is `List Char`; string literals of the source are written
  `"...".toList`.
* `std::ifstream` is a record of the two state bits the code depends on
  (`failbit`, `eofbit`) and the characters not yet read.  The file system is a
  function from paths to the contents of the files that can be opened.
* `std::getline` and `std::string::find` follow the standard library's
  behaviour: `getline` fails when the stream is not good on entry or when no
  character at all could be extracted; `find` returns the first position of
  the pattern, `none` standing for `std::string::npos`.
* The `while` loop is a recursion on a step bound.  `ParseShader` runs it with
  one more step than there are characters in the file; `whileLoop_exit` and
  `whileLoop_bound_irrelevant` show that the loop always leaves through a
  failed `getline` and that the bound never cuts it short.
-/

namespace ShaderParser

/-! ## Data model -/

/-- The `struct ShaderSource` of the source: the two blobs read from the file. -/
structure ShaderSource where
  VertexShaderSource : List Char
  FragmentShaderSource : List Char
  deriving DecidableEq, Repr

/-- The local `enum class ShaderType` of `ParseShader`. -/
inductive ShaderType where
  | NONE
  | VERTEX
  | FRAGMENT
  deriving DecidableEq, Repr

/-- The integer value of an enumerator, the cast `(int)shaderType`. -/
def ShaderType.toInt : ShaderType → Int
  | ShaderType.NONE => -1
  | ShaderType.VERTEX => 0
  | ShaderType.FRAGMENT => 1

/-- The files that can be opened for reading, with their contents; `none` for
a path that cannot be opened. -/
abbrev FileSystem := List Char → Option (List Char)

/-- The state of a `std::ifstream` as far as `ParseShader` observes it. -/
structure IfStream where
  failbit : Bool
  eofbit : Bool
  buf : List Char
  deriving DecidableEq, Repr

/-- The constructor `std::ifstream stream(filepath)`: a failed open sets
`failbit`. -/
def ifstream (fs : FileSystem) (filepath : List Char) : IfStream :=
  match fs filepath with
  | none => { failbit := true, eofbit := false, buf := [] }
  | some contents => { failbit := false, eofbit := false, buf := contents }

/-! ## Library functions used by the source -/

/-- The call `s.find(pat)` of `std::string`: the first position at which `pat`
occurs in `s`, `none` for `npos`. -/
def find : List Char → List Char → Option Nat
  | [], pat => if pat.isPrefixOf [] then some 0 else none
  | c :: cs, pat =>
    if pat.isPrefixOf (c :: cs) then some 0
    else (find cs pat).map (fun i => i + 1)

/-- Extraction of characters up to the delimiter `'\n'`: the characters
before it, and what follows it; `none` when the end of the input was reached
before a delimiter. -/
def extractLine : List Char → List Char × Option (List Char)
  | [] => ([], none)
  | c :: cs =>
    if c = '\n' then ([], some cs)
    else (c :: (extractLine cs).1, (extractLine cs).2)

/-- The call `getline(stream, line)`: the new stream and the new value of
`line`.  On a stream that is not good the sentry sets `failbit` and `line` is
left alone.  Otherwise `line` is replaced by the characters up to the next
`'\n'`, which is consumed; reaching the end of the input sets `eofbit`, and
having extracted nothing at all sets `failbit`. -/
def getline (stream : IfStream) (line : List Char) : IfStream × List Char :=
  if stream.failbit || stream.eofbit then
    ({ stream with failbit := true }, line)
  else
    match extractLine stream.buf with
    | (l, some rest) => ({ stream with buf := rest }, l)
    | (l, none) => ({ failbit := stream.buf.isEmpty, eofbit := true, buf := [] }, l)

/-! ## `ParseShader` -/

/-- The local variables of `ParseShader`: the stream, `line`, the two string
streams `ss[0]` and `ss[1]`, and `shaderType`. -/
structure Locals where
  stream : IfStream
  line : List Char
  ss0 : List Char
  ss1 : List Char
  shaderType : ShaderType
  deriving DecidableEq, Repr

/-- The statement `ss[(int)shaderType] << line << '\n'`; the index is `0` or
`1` wherever the source executes it. -/
def ssInsert (st : Locals) : Locals :=
  if st.shaderType.toInt = 0 then { st with ss0 := st.ss0 ++ st.line ++ ['\n'] }
  else if st.shaderType.toInt = 1 then { st with ss1 := st.ss1 ++ st.line ++ ['\n'] }
  else st

/-- The body of the `while` loop, run after `getline` has filled `line`. -/
def loopBody (st : Locals) : Locals :=
  if find st.line "#shader".toList ≠ none then
    if find st.line "vertex".toList ≠ none then
      { st with shaderType := ShaderType.VERTEX }
    else if find st.line "fragment".toList ≠ none then
      { st with shaderType := ShaderType.FRAGMENT }
    else st
  else
    if st.shaderType ≠ ShaderType.NONE then ssInsert st
    else st

/-- The loop `while (getline(stream, line)) { ... }`, bounded by a number of
iterations.  The condition is the stream converted to `bool`, that is
`!fail()`.  With a bound above the number of characters left to read the loop
ends on that condition and the bound is not reached (`whileLoop_exit`,
`whileLoop_bound_irrelevant`). -/
def whileLoop : Nat → Locals → Locals
  | 0, st => st
  | n + 1, st =>
    let r := getline st.stream st.line
    if r.1.failbit then { st with stream := r.1, line := r.2 }
    else whileLoop n (loopBody { st with stream := r.1, line := r.2 })

/-- The local variables of `ParseShader(filepath)` when it reaches its
`return` statement: the stream is opened, the other variables are initialised
as in the source, and the loop is run. -/
def localsAtReturn (fs : FileSystem) (filepath : List Char) : Locals :=
  let stream := ifstream fs filepath
  whileLoop (stream.buf.length + 1)
    { stream := stream, line := [], ss0 := [], ss1 := [], shaderType := ShaderType.NONE }

/-- The function `ParseShader(filepath)`, run on a given file system: it
returns `ShaderSource{ ss[0].str(), ss[1].str() }`. -/
def ParseShader (fs : FileSystem) (filepath : List Char) : ShaderSource :=
  let st := localsAtReturn fs filepath
  { VertexShaderSource := st.ss0, FragmentShaderSource := st.ss1 }

/-- The file system that holds the listed files, given as pairs of a path and
the contents, and no other file. -/
def files (fl : List (List Char × List Char)) : FileSystem :=
  fun p => fl.lookup p

/-! ## Notions used to state the properties -/

/-- The text `l` contains the text `pat` as a substring. -/
def contains (l pat : List Char) : Prop := pat <:+: l

instance (l pat : List Char) : Decidable (contains l pat) := by
  unfold contains; infer_instance

/-- A line that contains `#shader` together with `vertex` or `fragment`. -/
def recognizedMarker (l : List Char) : Prop :=
  contains l "#shader".toList ∧ (contains l "vertex".toList ∨ contains l "fragment".toList)

instance (l : List Char) : Decidable (recognizedMarker l) := by
  unfold recognizedMarker; infer_instance

/-- The lines of a text: the pieces between the `'\n'` characters; a last
piece that is not followed by `'\n'` is a line when it is not empty. -/
def lines : List Char → List (List Char)
  | [] => []
  | c :: cs =>
    if c = '\n' then [] :: lines cs
    else
      match lines cs with
      | [] => [[c]]
      | l :: ls => (c :: l) :: ls

/-- The text made of the given lines, each followed by `'\n'`. -/
def unlines : List (List Char) → List Char
  | [] => []
  | l :: ls => l ++ '\n' :: unlines ls

/-- A text made of complete lines: it is empty or ends with `'\n'`. -/
def completeLines (t : List Char) : Prop := t = [] ∨ t.getLast? = some '\n'

instance (t : List Char) : Decidable (completeLines t) := by
  unfold completeLines; infer_instance

/-- The latest line before position `i` that contains `#shader` together with
`vertex` or `fragment`. -/
def latestMarker (ls : List (List Char)) (i : Nat) : Option (List Char) :=
  ((ls.take i).reverse).find? (fun l => decide (recognizedMarker l))

/-- The line at position `i` is one of those the blob of the keyword `kw` is
made of: it does not contain `#shader`, some earlier line contains `#shader`
together with `vertex` or `fragment`, and the latest such line contains
`kw`. -/
def assignedTo (kw : List Char) (ls : List (List Char)) (i : Nat) : Bool :=
  match ls[i]?, latestMarker ls i with
  | some l, some m => decide (¬ contains l "#shader".toList) && decide (contains m kw)
  | _, _ => false

/-- The blob of the keyword `kw` as the specification words it, for a file
with the lines `ls`: the concatenation, in file order, of the lines assigned
to `kw`, each followed by `'\n'`. -/
def specBlobOfLines (kw : List Char) (ls : List (List Char)) : List Char :=
  unlines (((List.range ls.length).filter (assignedTo kw ls)).map (fun i => ls.getD i []))

/-- The blob of the keyword `kw` as the specification words it, for a file
with the given contents. -/
def specBlob (kw : List Char) (text : List Char) : List Char :=
  specBlobOfLines kw (lines text)

/-- The files the properties are tried on. -/
def exampleFiles : FileSystem :=
  files [
    ("plain.txt".toList, "int x;\nvoid main();\n".toList),
    ("basic.shader".toList, "#shader vertex\nfoo\n#shader fragment\nbar\n".toList),
    ("junk.shader".toList, "junk\n#shader vertex\nfoo\n".toList),
    ("nojunk.shader".toList, "#shader vertex\nfoo\n".toList),
    ("geometry.shader".toList, "#shader vertex\nx\n#shader geometry\ny\n".toList),
    ("nogeometry.shader".toList, "#shader vertex\nx\ny\n".toList),
    ("repeat.shader".toList, "#shader vertex\na\n#shader fragment\nb\n#shader vertex\nc\n".toList),
    ("first.shader".toList, "#shader vertex\na\n#shader fragment\nb\n".toList),
    ("second.shader".toList, "#shader vertex\nc\n".toList),
    ("comment.shader".toList, "#shader vertex\na\n#shader fragment // colours\nb\nc\n".toList),
    ("comment_head.shader".toList, "#shader vertex\na\n".toList),
    ("comment_marker.shader".toList, "#shader vertex\na\n#shader fragment // colours\n".toList),
    ("both.shader".toList, "#shader fragment\na\n#shader fragment vertex\nb\n".toList),
    ("both_head.shader".toList, "#shader fragment\na\n".toList),
    ("both_marker.shader".toList, "#shader fragment\na\n#shader fragment vertex\n".toList),
    ("precedence.shader".toList, "#shader vertex fragment\nfoo\n".toList),
    ("precedence_marker.shader".toList, "#shader vertex fragment\n".toList),
    ("mixed.shader".toList, "x\n#shader vertex // v\nfoo\n#shader\n#shader fragment\nbar".toList),
    ("swapped.shader".toList, "junk\n#shader fragment\nb\n#shader vertex\na".toList),
    ("reassembled.shader".toList, "#shader vertex\na\n#shader fragment\nb\n".toList)]

/-! ## Notions used in the proofs -/

/-- The variables the loop carries from one line to the next: `shaderType`,
`ss[0]` and `ss[1]`. -/
abbrev Sections := ShaderType × List Char × List Char

/-- The carried variables of a state of the function. -/
def core (st : Locals) : Sections := (st.shaderType, st.ss0, st.ss1)

/-- One execution of the loop body on the line `l`, as a function of the
carried variables. -/
def step (s : Sections) (l : List Char) : Sections :=
  core (loopBody
    { stream := { failbit := false, eofbit := false, buf := [] }, line := l,
      ss0 := s.2.1, ss1 := s.2.2, shaderType := s.1 })

/-- The loop body executed on each of the given lines in turn. -/
def run (ls : List (List Char)) (s : Sections) : Sections := ls.foldl step s

/-- The start value of the carried variables: no section, two empty blobs. -/
def start : Sections := (ShaderType.NONE, [], [])

/-- The section a recognized marker line selects: `vertex` is looked for
first. -/
def markerSection (m : List Char) : ShaderType :=
  if contains m "vertex".toList then ShaderType.VERTEX else ShaderType.FRAGMENT

/-- The section selected by the latest recognized marker line, if any. -/
def sectionOf : Option (List Char) → ShaderType
  | none => ShaderType.NONE
  | some m => markerSection m

/-- A blob made of lines that hold no `'\n'` and do not contain `#shader`,
each followed by `'\n'`. -/
def CleanBlob (b : List Char) : Prop :=
  ∃ ls : List (List Char), b = unlines ls ∧ ∀ l ∈ ls, '\n' ∉ l ∧ ¬ contains l "#shader".toList

/-! ## The library functions -/

theorem find_ne_none_iff (l pat : List Char) : find l pat ≠ none ↔ contains l pat := by
  unfold contains
  induction l with
  | nil =>
    cases pat <;> simp [find, List.isPrefixOf]
  | cons c cs ih =>
    rw [find, List.infix_cons_iff]
    by_cases h : pat.isPrefixOf (c :: cs) = true
    · simp only [h, if_true]
      simp [List.isPrefixOf_iff_prefix.mp h]
    · have h2 : ¬ pat <+: c :: cs := fun hp => h (List.isPrefixOf_iff_prefix.mpr hp)
      simp only [h, if_false, h2, false_or]
      rw [← ih]
      cases find cs pat <;> simp

theorem extractLine_length (t l rest : List Char) (h : extractLine t = (l, some rest)) :
    rest.length < t.length := by
  induction t generalizing l with
  | nil => simp [extractLine] at h
  | cons c cs ih =>
    rw [extractLine] at h
    split at h
    · simp only [Prod.mk.injEq, Option.some.injEq] at h
      simp [h.2]
    · simp only [Prod.mk.injEq] at h
      have := ih _ (Prod.ext rfl h.2)
      simp only [List.length_cons]
      omega

theorem lines_eq_nil_iff (t : List Char) : lines t = [] ↔ t = [] := by
  cases t with
  | nil => simp [lines]
  | cons c cs =>
    simp only [lines]
    split
    · simp
    · split <;> simp

/-- The lines of a text are what successive `getline` calls extract. -/
theorem lines_cons_extractLine (c : Char) (cs : List Char) :
    lines (c :: cs) =
      match extractLine (c :: cs) with
      | (l, some rest) => l :: lines rest
      | (l, none) => [l] := by
  induction cs generalizing c with
  | nil =>
    by_cases hc : c = '\n' <;> simp [lines, extractLine, hc]
  | cons d ds ih =>
    by_cases hc : c = '\n'
    · simp [lines, extractLine, hc]
    · have ih2 := ih d
      have hx : extractLine (c :: d :: ds)
          = (c :: (extractLine (d :: ds)).1, (extractLine (d :: ds)).2) := by
        rw [extractLine, if_neg hc]
      rw [lines, if_neg hc, ih2, hx]
      rcases extractLine (d :: ds) with ⟨l, _ | rest⟩ <;> simp

/-! ## The loop as a run over the lines of the file -/

theorem core_loopBody (st : Locals) : core (loopBody st) = step (core st) st.line := by
  unfold step loopBody core ssInsert
  simp only []
  split_ifs <;> rfl

theorem loopBody_stream (st : Locals) : (loopBody st).stream = st.stream := by
  unfold loopBody ssInsert
  split_ifs <;> rfl

theorem step_marker_vertex (ty : ShaderType) (v f l : List Char)
    (h1 : contains l "#shader".toList) (h2 : contains l "vertex".toList) :
    step (ty, v, f) l = (ShaderType.VERTEX, v, f) := by
  rw [← find_ne_none_iff] at h1 h2
  unfold step loopBody core
  rw [if_pos h1, if_pos h2]

theorem step_marker_fragment (ty : ShaderType) (v f l : List Char)
    (h1 : contains l "#shader".toList) (h2 : ¬ contains l "vertex".toList)
    (h3 : contains l "fragment".toList) :
    step (ty, v, f) l = (ShaderType.FRAGMENT, v, f) := by
  rw [← find_ne_none_iff] at h1 h2 h3
  unfold step loopBody core
  rw [if_pos h1, if_neg h2, if_pos h3]

theorem step_marker_other (s : Sections) (l : List Char)
    (h1 : contains l "#shader".toList) (h2 : ¬ contains l "vertex".toList)
    (h3 : ¬ contains l "fragment".toList) :
    step s l = s := by
  rw [← find_ne_none_iff] at h1 h2 h3
  unfold step loopBody core
  rw [if_pos h1, if_neg h2, if_neg h3]

theorem step_plain_none (v f l : List Char) (h1 : ¬ contains l "#shader".toList) :
    step (ShaderType.NONE, v, f) l = (ShaderType.NONE, v, f) := by
  rw [← find_ne_none_iff] at h1
  unfold step loopBody core
  rw [if_neg h1]
  rfl

theorem step_plain_vertex (v f l : List Char) (h1 : ¬ contains l "#shader".toList) :
    step (ShaderType.VERTEX, v, f) l = (ShaderType.VERTEX, v ++ l ++ ['\n'], f) := by
  rw [← find_ne_none_iff] at h1
  unfold step loopBody core
  rw [if_neg h1]
  rfl

theorem step_plain_fragment (v f l : List Char) (h1 : ¬ contains l "#shader".toList) :
    step (ShaderType.FRAGMENT, v, f) l = (ShaderType.FRAGMENT, v, f ++ l ++ ['\n']) := by
  rw [← find_ne_none_iff] at h1
  unfold step loopBody core
  rw [if_neg h1]
  rfl

/-- On a stream that is good, with more iterations allowed than there are
characters left, the loop runs the body on every line of the rest of the file
and leaves through a failed `getline`. -/
theorem whileLoop_run (n : Nat) (t : List Char) (st : Locals)
    (hs : st.stream = { failbit := false, eofbit := false, buf := t })
    (hn : t.length < n) :
    core (whileLoop n st) = run (lines t) (core st)
      ∧ (whileLoop n st).stream.failbit = true := by
  induction n generalizing t st with
  | zero => omega
  | succ n ih =>
    cases t with
    | nil =>
      simp [whileLoop, getline, hs, extractLine, lines, run, core]
    | cons c cs =>
      have hl := lines_cons_extractLine c cs
      rcases hx : extractLine (c :: cs) with ⟨l, _ | rest⟩
      · -- the last line, not followed by a newline
        rw [hx] at hl
        have hg : getline st.stream st.line
            = ({ failbit := false, eofbit := true, buf := [] }, l) := by
          simp [getline, hs, hx]
        rw [whileLoop]
        simp only [hg]
        rw [hl]
        cases n with
        | zero => simp at hn
        | succ m =>
          rw [whileLoop]
          simp only [loopBody_stream, getline, Bool.or_true, if_true]
          simp only [core, run, List.foldl]
          have := core_loopBody { st with
            stream := { failbit := false, eofbit := true, buf := [] }, line := l }
          simp only [core] at this
          simp [this]
      · rw [hx] at hl
        have hlen := extractLine_length _ _ _ hx
        have hg : getline st.stream st.line
            = ({ failbit := false, eofbit := false, buf := rest }, l) := by
          simp [getline, hs, hx]
        rw [whileLoop]
        simp only [hg]
        have := ih rest (loopBody { st with
            stream := { failbit := false, eofbit := false, buf := rest }, line := l })
          (by rw [loopBody_stream]) (by simp at hn hlen; omega)
        rw [core_loopBody] at this
        simp only [Bool.false_eq_true, if_false]
        rw [hl]
        simpa [run, core] using this

/-- The loop leaves through a failed `getline` whenever it is allowed more
iterations than there are characters left to read. -/
theorem whileLoop_exit (n : Nat) (st : Locals) (hn : st.stream.buf.length < n) :
    (whileLoop n st).stream.failbit = true := by
  induction n generalizing st with
  | zero => omega
  | succ n ih =>
    rw [whileLoop]
    split_ifs with hf
    · exact hf
    · apply ih
      rw [loopBody_stream]
      simp only [getline] at hf ⊢
      split_ifs at hf ⊢ with hb
      · simp at hf
      · rcases hx : extractLine st.stream.buf with ⟨l, _ | rest⟩
        · rw [hx] at hf
          simp only [Bool.not_eq_true, List.isEmpty_eq_false] at hf
          simp only [List.length_nil]
          have : 0 < st.stream.buf.length := List.length_pos.mpr hf
          omega
        · have := extractLine_length _ _ _ hx
          simp only
          omega

/-- The iteration bound does not influence the result once it exceeds the
number of characters left to read. -/
theorem whileLoop_bound_irrelevant (n m : Nat) (st : Locals)
    (hn : st.stream.buf.length < n) (hm : st.stream.buf.length < m) :
    whileLoop n st = whileLoop m st := by
  induction n generalizing m st with
  | zero => omega
  | succ n ih =>
    cases m with
    | zero => omega
    | succ m =>
      rw [whileLoop, whileLoop]
      split_ifs with hf
      · rfl
      · have key : (getline st.stream st.line).1.buf.length < n
            ∧ (getline st.stream st.line).1.buf.length < m := by
          simp only [getline] at hf ⊢
          split_ifs at hf ⊢ with hb
          · simp at hf
          · rcases hx : extractLine st.stream.buf with ⟨l, _ | rest⟩
            · rw [hx] at hf
              simp only [Bool.not_eq_true, List.isEmpty_eq_false] at hf
              simp only [List.length_nil]
              have : 0 < st.stream.buf.length := List.length_pos.mpr hf
              omega
            · have := extractLine_length _ _ _ hx
              simp only
              omega
        apply ih
        · rw [loopBody_stream]; exact key.1
        · rw [loopBody_stream]; exact key.2

theorem core_localsAtReturn (fs : FileSystem) (filepath t : List Char)
    (h : fs filepath = some t) :
    core (localsAtReturn fs filepath) = run (lines t) start := by
  unfold localsAtReturn
  have hs : ifstream fs filepath = { failbit := false, eofbit := false, buf := t } := by
    simp [ifstream, h]
  rw [hs]
  exact (whileLoop_run (t.length + 1) t _ rfl (Nat.lt_succ_self _)).1

/-- On a file that opens, `ParseShader` returns the blobs accumulated by
running the loop body over the lines of the file. -/
theorem ParseShader_of_contents (fs : FileSystem) (filepath t : List Char)
    (h : fs filepath = some t) :
    ParseShader fs filepath = ⟨(run (lines t) start).2.1, (run (lines t) start).2.2⟩ := by
  have := core_localsAtReturn fs filepath t h
  unfold ParseShader
  rw [← this]
  rfl

theorem shaderType_localsAtReturn (fs : FileSystem) (filepath t : List Char)
    (h : fs filepath = some t) :
    (localsAtReturn fs filepath).shaderType = (run (lines t) start).1 := by
  rw [← core_localsAtReturn fs filepath t h]
  rfl

/-- The result of `ParseShader` depends on the file system only through the
contents of the file it reads. -/
theorem ParseShader_congr (fs fs2 : FileSystem) (p q t : List Char)
    (hp : fs p = some t) (hq : fs2 q = some t) : ParseShader fs p = ParseShader fs2 q := by
  rw [ParseShader_of_contents fs p t hp, ParseShader_of_contents fs2 q t hq]

/-! ## Lines of a text -/

theorem completeLines_tail (c : Char) (cs : List Char) (h : completeLines (c :: cs))
    (hcs : cs ≠ []) : completeLines cs := by
  rcases h with h | h
  · simp at h
  · right
    cases cs with
    | nil => exact absurd rfl hcs
    | cons d ds => simpa [List.getLast?_cons_cons] using h

theorem lines_append_of_complete (a b : List Char) (h : completeLines a) :
    lines (a ++ b) = lines a ++ lines b := by
  induction a with
  | nil => simp [lines]
  | cons c cs ih =>
    by_cases hcs : cs = []
    · subst hcs
      rcases h with h | h
      · simp at h
      · simp only [List.getLast?_singleton, Option.some.injEq] at h
        subst h
        simp [lines]
    · have ih2 := ih (completeLines_tail c cs h hcs)
      by_cases hc : c = '\n'
      · simp [lines, hc, ih2]
      · have hne : lines cs ≠ [] := fun h0 => hcs ((lines_eq_nil_iff cs).mp h0)
        rw [List.cons_append, lines, if_neg hc, ih2, lines, if_neg hc]
        cases hl : lines cs with
        | nil => exact absurd hl hne
        | cons l ls => simp

theorem lines_line_cons (l b : List Char) (h : '\n' ∉ l) :
    lines (l ++ '\n' :: b) = l :: lines b := by
  induction l with
  | nil => simp [lines]
  | cons c cs ih =>
    have hc : c ≠ '\n' := fun hc => h (by simp [hc])
    have hcs : '\n' ∉ cs := fun hm => h (List.mem_cons_of_mem _ hm)
    rw [List.cons_append, lines, if_neg hc, ih hcs]

theorem lines_unlines (ls : List (List Char)) (h : ∀ l ∈ ls, '\n' ∉ l) :
    lines (unlines ls) = ls := by
  induction ls with
  | nil => rfl
  | cons l ls ih =>
    rw [unlines, lines_line_cons l _ (h l (List.mem_cons_self _ _)),
      ih (fun x hx => h x (List.mem_cons_of_mem _ hx))]

theorem newline_not_mem_of_mem_lines (t l : List Char) (h : l ∈ lines t) : '\n' ∉ l := by
  induction t generalizing l with
  | nil => simp [lines] at h
  | cons c cs ih =>
    rw [lines] at h
    by_cases hc : c = '\n'
    · rw [if_pos hc] at h
      rcases List.mem_cons.mp h with h | h
      · simp [h]
      · exact ih l h
    · rw [if_neg hc] at h
      cases hl : lines cs with
      | nil =>
        rw [hl] at h
        simp only [List.mem_singleton] at h
        subst h
        simpa using Ne.symm hc
      | cons x xs =>
        rw [hl] at h ih
        rcases List.mem_cons.mp h with h | h
        · subst h
          have := ih x (List.mem_cons_self _ _)
          simp only [List.mem_cons, not_or]
          exact ⟨Ne.symm hc, this⟩
        · exact ih l (List.mem_cons_of_mem _ h)

theorem unlines_append (a b : List (List Char)) :
    unlines (a ++ b) = unlines a ++ unlines b := by
  induction a with
  | nil => rfl
  | cons l ls ih => simp [unlines, ih]

/-! ## Runs of the loop body -/

theorem run_nil (s : Sections) : run [] s = s := rfl

theorem run_cons (l : List Char) (ls : List (List Char)) (s : Sections) :
    run (l :: ls) s = run ls (step s l) := rfl

theorem run_append (a b : List (List Char)) (s : Sections) :
    run (a ++ b) s = run b (run a s) := by
  simp [run, List.foldl_append]

theorem step_recognized (ty : ShaderType) (v f m : List Char) (h : recognizedMarker m) :
    step (ty, v, f) m = (markerSection m, v, f) := by
  unfold markerSection
  by_cases hv : contains m "vertex".toList
  · rw [if_pos hv]; exact step_marker_vertex ty v f m h.1 hv
  · rw [if_neg hv]
    exact step_marker_fragment ty v f m h.1 hv (h.2.resolve_left hv)

/-- The loop body only ever appends to the blobs. -/
theorem step_shift (ty : ShaderType) (v f l : List Char) :
    step (ty, v, f) l
      = ((step (ty, [], []) l).1, v ++ (step (ty, [], []) l).2.1,
          f ++ (step (ty, [], []) l).2.2) := by
  by_cases h1 : contains l "#shader".toList
  · by_cases h2 : contains l "vertex".toList
    · simp [step_marker_vertex _ _ _ _ h1 h2]
    · by_cases h3 : contains l "fragment".toList
      · simp [step_marker_fragment _ _ _ _ h1 h2 h3]
      · simp [step_marker_other _ _ h1 h2 h3]
  · cases ty
    · simp [step_plain_none _ _ _ h1]
    · simp [step_plain_vertex _ _ _ h1]
    · simp [step_plain_fragment _ _ _ h1]

theorem run_shift (ls : List (List Char)) (ty : ShaderType) (v f : List Char) :
    run ls (ty, v, f)
      = ((run ls (ty, [], [])).1, v ++ (run ls (ty, [], [])).2.1,
          f ++ (run ls (ty, [], [])).2.2) := by
  induction ls generalizing ty v f with
  | nil => simp [run_nil]
  | cons l ls ih =>
    rw [run_cons, run_cons, step_shift ty v f l, ih]
    conv_rhs => rw [ih]
    simp [List.append_assoc]

theorem run_plain_none (ls : List (List Char)) (v f : List Char)
    (h : ∀ l ∈ ls, ¬ recognizedMarker l) :
    run ls (ShaderType.NONE, v, f) = (ShaderType.NONE, v, f) := by
  induction ls with
  | nil => rfl
  | cons l ls ih =>
    have hl := h l (List.mem_cons_self _ _)
    have hstep : step (ShaderType.NONE, v, f) l = (ShaderType.NONE, v, f) := by
      by_cases h1 : contains l "#shader".toList
      · have h2 : ¬ contains l "vertex".toList := fun h2 => hl ⟨h1, Or.inl h2⟩
        have h3 : ¬ contains l "fragment".toList := fun h3 => hl ⟨h1, Or.inr h3⟩
        exact step_marker_other _ _ h1 h2 h3
      · exact step_plain_none _ _ _ h1
    rw [run_cons, hstep]
    exact ih (fun x hx => h x (List.mem_cons_of_mem _ hx))

theorem run_plain_vertex (ls : List (List Char)) (v f : List Char)
    (h : ∀ l ∈ ls, ¬ contains l "#shader".toList) :
    run ls (ShaderType.VERTEX, v, f) = (ShaderType.VERTEX, v ++ unlines ls, f) := by
  induction ls generalizing v with
  | nil => simp [run_nil, unlines]
  | cons l ls ih =>
    rw [run_cons, step_plain_vertex _ _ _ (h l (List.mem_cons_self _ _)),
      ih _ (fun x hx => h x (List.mem_cons_of_mem _ hx))]
    simp [unlines]

theorem run_plain_fragment (ls : List (List Char)) (v f : List Char)
    (h : ∀ l ∈ ls, ¬ contains l "#shader".toList) :
    run ls (ShaderType.FRAGMENT, v, f) = (ShaderType.FRAGMENT, v, f ++ unlines ls) := by
  induction ls generalizing f with
  | nil => simp [run_nil, unlines]
  | cons l ls ih =>
    rw [run_cons, step_plain_fragment _ _ _ (h l (List.mem_cons_self _ _)),
      ih _ (fun x hx => h x (List.mem_cons_of_mem _ hx))]
    simp [unlines]

theorem ParseShader_failed_open (fs : FileSystem) (filepath : List Char)
    (h : fs filepath = none) :
    localsAtReturn fs filepath
      = { stream := { failbit := true, eofbit := false, buf := [] }, line := [],
          ss0 := [], ss1 := [], shaderType := ShaderType.NONE } := by
  simp [localsAtReturn, ifstream, h, whileLoop, getline]

/-- What the loop has done after a text `pre` of complete lines, a marker line
`m` and the lines of `blk`, none of which contains `#shader`, when `m` selects
the vertex section. -/
theorem run_marker_block_vertex (pre m blk : List Char)
    (hpre : completeLines pre) (hm : '\n' ∉ m)
    (h1 : contains m "#shader".toList) (h2 : contains m "vertex".toList)
    (hblk : ∀ l ∈ lines blk, ¬ contains l "#shader".toList) :
    run (lines (pre ++ m ++ '\n' :: blk)) start
      = (ShaderType.VERTEX, (run (lines pre) start).2.1 ++ unlines (lines blk),
          (run (lines pre) start).2.2) := by
  rw [List.append_assoc, lines_append_of_complete pre _ hpre, lines_line_cons m blk hm,
    run_append, run_cons]
  rcases run (lines pre) start with ⟨ty, v, f⟩
  rw [step_marker_vertex ty v f m h1 h2, run_plain_vertex _ _ _ hblk]

/-- The same when `m` selects the fragment section. -/
theorem run_marker_block_fragment (pre m blk : List Char)
    (hpre : completeLines pre) (hm : '\n' ∉ m)
    (h1 : contains m "#shader".toList) (h2 : ¬ contains m "vertex".toList)
    (h3 : contains m "fragment".toList)
    (hblk : ∀ l ∈ lines blk, ¬ contains l "#shader".toList) :
    run (lines (pre ++ m ++ '\n' :: blk)) start
      = (ShaderType.FRAGMENT, (run (lines pre) start).2.1,
          (run (lines pre) start).2.2 ++ unlines (lines blk)) := by
  rw [List.append_assoc, lines_append_of_complete pre _ hpre, lines_line_cons m blk hm,
    run_append, run_cons]
  rcases run (lines pre) start with ⟨ty, v, f⟩
  rw [step_marker_fragment ty v f m h1 h2 h3, run_plain_fragment _ _ _ hblk]

theorem cleanBlob_nil : CleanBlob [] := ⟨[], rfl, by simp⟩

theorem cleanBlob_append_line (b l : List Char) (hb : CleanBlob b) (hl : '\n' ∉ l)
    (hs : ¬ contains l "#shader".toList) : CleanBlob (b ++ l ++ ['\n']) := by
  obtain ⟨ls, rfl, hls⟩ := hb
  refine ⟨ls ++ [l], ?_, ?_⟩
  · rw [unlines_append]
    simp [unlines]
  · intro x hx
    rcases List.mem_append.mp hx with hx | hx
    · exact hls x hx
    · rw [List.mem_singleton] at hx
      subst hx
      exact ⟨hl, hs⟩

theorem step_clean (ty : ShaderType) (v f l : List Char) (hl : '\n' ∉ l)
    (hv : CleanBlob v) (hf : CleanBlob f) :
    CleanBlob (step (ty, v, f) l).2.1 ∧ CleanBlob (step (ty, v, f) l).2.2 := by
  by_cases h1 : contains l "#shader".toList
  · by_cases h2 : contains l "vertex".toList
    · rw [step_marker_vertex _ _ _ _ h1 h2]; exact ⟨hv, hf⟩
    · by_cases h3 : contains l "fragment".toList
      · rw [step_marker_fragment _ _ _ _ h1 h2 h3]; exact ⟨hv, hf⟩
      · rw [step_marker_other _ _ h1 h2 h3]; exact ⟨hv, hf⟩
  · cases ty
    · rw [step_plain_none _ _ _ h1]; exact ⟨hv, hf⟩
    · rw [step_plain_vertex _ _ _ h1]
      exact ⟨cleanBlob_append_line v l hv hl h1, hf⟩
    · rw [step_plain_fragment _ _ _ h1]
      exact ⟨hv, cleanBlob_append_line f l hf hl h1⟩

theorem run_clean (ls : List (List Char)) (s : Sections) (hls : ∀ l ∈ ls, '\n' ∉ l)
    (hv : CleanBlob s.2.1) (hf : CleanBlob s.2.2) :
    CleanBlob (run ls s).2.1 ∧ CleanBlob (run ls s).2.2 := by
  induction ls generalizing s with
  | nil => exact ⟨hv, hf⟩
  | cons l ls ih =>
    rw [run_cons]
    obtain ⟨ty, v, f⟩ := s
    have := step_clean ty v f l (hls l (List.mem_cons_self _ _)) hv hf
    exact ih _ (fun x hx => hls x (List.mem_cons_of_mem _ hx)) this.1 this.2

/-- Both blobs returned by `ParseShader` are made of complete lines that do not
contain `#shader`. -/
theorem ParseShader_clean (fs : FileSystem) (filepath : List Char) :
    CleanBlob (ParseShader fs filepath).VertexShaderSource
      ∧ CleanBlob (ParseShader fs filepath).FragmentShaderSource := by
  cases h : fs filepath with
  | none =>
    simp [ParseShader, ParseShader_failed_open fs filepath h, cleanBlob_nil]
  | some t =>
    rw [ParseShader_of_contents fs filepath t h]
    exact run_clean (lines t) start (fun l hl => newline_not_mem_of_mem_lines t l hl)
      cleanBlob_nil cleanBlob_nil

theorem cleanBlob_lines (b l : List Char) (hb : CleanBlob b) (hl : l ∈ lines b) :
    ¬ contains l "#shader".toList := by
  obtain ⟨ls, rfl, hls⟩ := hb
  rw [lines_unlines ls (fun x hx => (hls x hx).1)] at hl
  exact (hls l hl).2

/-! ## The blobs as the specification words them -/

theorem latestMarker_append_of_le (ls : List (List Char)) (l : List Char) (i : Nat)
    (hi : i ≤ ls.length) : latestMarker (ls ++ [l]) i = latestMarker ls i := by
  unfold latestMarker
  rw [List.take_append_of_le_length hi]

theorem latestMarker_append_length (ls : List (List Char)) (l : List Char) :
    latestMarker (ls ++ [l]) (ls.length + 1)
      = if recognizedMarker l then some l else latestMarker ls ls.length := by
  unfold latestMarker
  have h1 : (ls ++ [l]).take (ls.length + 1) = ls ++ [l] := by
    apply List.take_of_length_le; simp
  rw [h1, List.take_of_length_le (le_refl _), List.reverse_append]
  simp only [List.reverse_cons, List.reverse_nil, List.nil_append, List.singleton_append,
    List.find?_cons]
  by_cases h : recognizedMarker l <;> simp [h]

theorem latestMarker_spec (ls : List (List Char)) (i : Nat) (m : List Char)
    (h : latestMarker ls i = some m) : recognizedMarker m ∧ m ∈ ls := by
  unfold latestMarker at h
  constructor
  · simpa using List.find?_some h
  · have := List.mem_of_find?_eq_some h
    rw [List.mem_reverse] at this
    exact List.mem_of_mem_take this

theorem assignedTo_append_of_lt (kw : List Char) (ls : List (List Char)) (l : List Char)
    (i : Nat) (hi : i < ls.length) :
    assignedTo kw (ls ++ [l]) i = assignedTo kw ls i := by
  unfold assignedTo
  rw [latestMarker_append_of_le ls l i (Nat.le_of_lt hi), List.getElem?_append_left hi]

theorem assignedTo_append_length (kw : List Char) (ls : List (List Char)) (l : List Char) :
    assignedTo kw (ls ++ [l]) ls.length
      = (decide (¬ contains l "#shader".toList)
          && match latestMarker ls ls.length with
             | some m => decide (contains m kw)
             | none => false) := by
  unfold assignedTo
  rw [latestMarker_append_of_le ls l _ (le_refl _)]
  have : (ls ++ [l])[ls.length]? = some l := by simp
  rw [this]
  cases latestMarker ls ls.length <;> simp

theorem specBlobOfLines_append (kw : List Char) (ls : List (List Char)) (l : List Char) :
    specBlobOfLines kw (ls ++ [l])
      = specBlobOfLines kw ls
          ++ (if assignedTo kw (ls ++ [l]) ls.length then l ++ ['\n'] else []) := by
  unfold specBlobOfLines
  rw [List.length_append, List.length_singleton, List.range_succ, List.filter_append,
    List.map_append, unlines_append]
  congr 1
  · congr 1
    have hf : (List.range ls.length).filter (assignedTo kw (ls ++ [l]))
        = (List.range ls.length).filter (assignedTo kw ls) := by
      apply List.filter_congr
      intro i hi
      exact assignedTo_append_of_lt kw ls l i (List.mem_range.mp hi)
    rw [hf]
    apply List.map_congr_left
    intro i hi
    have hi2 : i < ls.length := List.mem_range.mp (List.mem_of_mem_filter hi)
    simp [List.getD_eq_getElem?_getD, List.getElem?_append_left hi2]
  · by_cases h : assignedTo kw (ls ++ [l]) ls.length = true
    · simp [h, unlines]
    · simp [h, unlines]

theorem run_eq_spec (ls : List (List Char))
    (h : ∀ l ∈ ls, contains l "#shader".toList →
      ¬ (contains l "vertex".toList ∧ contains l "fragment".toList)) :
    run ls start
      = (sectionOf (latestMarker ls ls.length), specBlobOfLines "vertex".toList ls,
          specBlobOfLines "fragment".toList ls) := by
  induction ls using List.reverseRecOn with
  | nil => rfl
  | append_singleton ls l ih =>
    have ih2 := ih (fun x hx => h x (List.mem_append_left _ hx))
    rw [run_append, ih2, run_cons, run_nil, specBlobOfLines_append, specBlobOfLines_append,
      assignedTo_append_length, assignedTo_append_length, List.length_append,
      List.length_singleton, latestMarker_append_length]
    by_cases h1 : contains l "#shader".toList
    · have d1 : decide (¬ contains l "#shader".toList) = false :=
        decide_eq_false (not_not_intro h1)
      rw [d1]
      simp only [Bool.false_and, Bool.false_eq_true, if_false, List.append_nil]
      by_cases hr : recognizedMarker l
      · rw [if_pos hr, step_recognized _ _ _ _ hr]
        rfl
      · have h2 : ¬ contains l "vertex".toList := fun h2 => hr ⟨h1, Or.inl h2⟩
        have h3 : ¬ contains l "fragment".toList := fun h3 => hr ⟨h1, Or.inr h3⟩
        rw [if_neg hr, step_marker_other _ _ h1 h2 h3]
    · have hr : ¬ recognizedMarker l := fun hr => h1 hr.1
      have d1 : decide (¬ contains l "#shader".toList) = true := decide_eq_true h1
      rw [d1, if_neg hr]
      cases hm : latestMarker ls ls.length with
      | none =>
        simp only [sectionOf, Bool.true_and, Bool.false_eq_true, if_false, List.append_nil]
        rw [step_plain_none _ _ _ h1]
      | some m =>
        obtain ⟨hmr, hmem⟩ := latestMarker_spec ls _ m hm
        have hboth := h m (List.mem_append_left _ hmem) hmr.1
        simp only [sectionOf, markerSection, Bool.true_and]
        by_cases hv : contains m "vertex".toList
        · have hf : ¬ contains m "fragment".toList := fun hf => hboth ⟨hv, hf⟩
          rw [if_pos hv, step_plain_vertex _ _ _ h1, decide_eq_true hv, decide_eq_false hf]
          simp only [Bool.false_eq_true, if_false, if_true, List.append_nil,
            List.append_assoc]
        · have hf : contains m "fragment".toList := hmr.2.resolve_left hv
          rw [if_neg hv, step_plain_fragment _ _ _ h1, decide_eq_true hf, decide_eq_false hv]
          simp only [Bool.false_eq_true, if_false, if_true, List.append_nil,
            List.append_assoc]

/-! ## The properties of `ParseShader` -/

/-- C1: when no line of the file that contains `#shader` contains both
`vertex` and `fragment`, the vertex blob returned by `ParseShader` is the
concatenation, in file order, of `L` followed by `'\n'` for exactly the lines
`L` that do not contain `#shader` and whose latest earlier line containing
`#shader` together with `vertex` or `fragment` contains `vertex`; the fragment
blob is the same with `fragment`. -/
theorem ParseShader_eq_specBlob (fs : FileSystem) (filepath text : List Char)
    (hopen : fs filepath = some text)
    (h : ∀ l ∈ lines text, contains l "#shader".toList →
      ¬ (contains l "vertex".toList ∧ contains l "fragment".toList)) :
    ParseShader fs filepath
      = ⟨specBlob "vertex".toList text, specBlob "fragment".toList text⟩ := by
  rw [ParseShader_of_contents fs filepath text hopen, run_eq_spec (lines text) h]
  rfl

theorem ParseShader_eq_specBlob_witness :
    exampleFiles "basic.shader".toList
        = some "#shader vertex\nfoo\n#shader fragment\nbar\n".toList
      ∧ specBlob "vertex".toList "#shader vertex\nfoo\n#shader fragment\nbar\n".toList
          = "foo\n".toList
      ∧ specBlob "fragment".toList "#shader vertex\nfoo\n#shader fragment\nbar\n".toList
          = "bar\n".toList
      ∧ ParseShader exampleFiles "basic.shader".toList
          = ⟨specBlob "vertex".toList "#shader vertex\nfoo\n#shader fragment\nbar\n".toList,
             specBlob "fragment".toList "#shader vertex\nfoo\n#shader fragment\nbar\n".toList⟩ :=
  ⟨by decide, by decide, by decide,
    ParseShader_eq_specBlob exampleFiles "basic.shader".toList
      "#shader vertex\nfoo\n#shader fragment\nbar\n".toList (by decide) (by decide)⟩

/-- C2, as the code behaves: on a path that cannot be opened no error is
raised.  The stream is left in the failed state, at the `return` statement the
stream is still failed and `line`, `ss[0]`, `ss[1]` and `shaderType` still hold
their initial values (empty, empty, empty, NONE), and `ParseShader` returns the
pair of two empty blobs. -/
theorem ParseShader_unopenable (fs : FileSystem) (filepath : List Char)
    (h : fs filepath = none) :
    (ifstream fs filepath).failbit = true
      ∧ localsAtReturn fs filepath
          = { stream := { failbit := true, eofbit := false, buf := [] }, line := [],
              ss0 := [], ss1 := [], shaderType := ShaderType.NONE }
      ∧ ParseShader fs filepath = ⟨[], []⟩ := by
  refine ⟨?_, ParseShader_failed_open fs filepath h, ?_⟩
  · simp [ifstream, h]
  · simp [ParseShader, ParseShader_failed_open fs filepath h]

theorem ParseShader_unopenable_witness :
    exampleFiles "missing.shader".toList = none
      ∧ (ifstream exampleFiles "missing.shader".toList).failbit = true
      ∧ localsAtReturn exampleFiles "missing.shader".toList
          = { stream := { failbit := true, eofbit := false, buf := [] }, line := [],
              ss0 := [], ss1 := [], shaderType := ShaderType.NONE }
      ∧ ParseShader exampleFiles "missing.shader".toList = ⟨[], []⟩ :=
  ⟨by decide, ParseShader_unopenable exampleFiles "missing.shader".toList (by decide)⟩

/-- C2 fails as stated: for the path `nothing.shader` of a file system without
files the open fails, and `ParseShader` nevertheless returns a pair of blobs,
the two empty ones. -/
theorem ParseShader_unopenable_returns_pair :
    files [] "nothing.shader".toList = none
      ∧ ∃ r : ShaderSource, ParseShader (files []) "nothing.shader".toList = r
          ∧ r = ⟨[], []⟩ :=
  ⟨by decide, ⟨[], []⟩, by decide, rfl⟩

/-- C3, as the code behaves: a line `m` that contains `#shader` and `vertex`
makes the active section VERTEX, and a line that contains `#shader` and
`fragment` but not `vertex` makes it FRAGMENT.  The file `r` ends with the
line `m`, the file `p` goes on with the text `blk`, in which no line contains
`#shader`, and the file `q` holds what precedes `m`: after `m` the section is
the one named, and the lines of `blk` are appended, each followed by a
newline, to that section's blob and to no other. -/
theorem marker_selects_section (fs : FileSystem) (p q r pre m blk : List Char)
    (hp : fs p = some (pre ++ m ++ '\n' :: blk)) (hq : fs q = some pre)
    (hr : fs r = some (pre ++ m ++ ['\n']))
    (hpre : completeLines pre) (hm : '\n' ∉ m)
    (h1 : contains m "#shader".toList)
    (hblk : ∀ l ∈ lines blk, ¬ contains l "#shader".toList) :
    (contains m "vertex".toList →
        (localsAtReturn fs r).shaderType = ShaderType.VERTEX
        ∧ ParseShader fs p
            = ⟨(ParseShader fs q).VertexShaderSource ++ unlines (lines blk),
               (ParseShader fs q).FragmentShaderSource⟩)
    ∧ (contains m "fragment".toList → ¬ contains m "vertex".toList →
        (localsAtReturn fs r).shaderType = ShaderType.FRAGMENT
        ∧ ParseShader fs p
            = ⟨(ParseShader fs q).VertexShaderSource,
               (ParseShader fs q).FragmentShaderSource ++ unlines (lines blk)⟩) := by
  have hnil : ∀ l ∈ lines ([] : List Char), ¬ contains l "#shader".toList := by
    simp [lines]
  rw [shaderType_localsAtReturn fs r _ hr, ParseShader_of_contents fs p _ hp,
    ParseShader_of_contents fs q _ hq]
  constructor
  · intro h2
    rw [run_marker_block_vertex pre m blk hpre hm h1 h2 hblk,
      run_marker_block_vertex pre m [] hpre hm h1 h2 hnil]
    exact ⟨rfl, rfl⟩
  · intro h3 h2
    rw [run_marker_block_fragment pre m blk hpre hm h1 h2 h3 hblk,
      run_marker_block_fragment pre m [] hpre hm h1 h2 h3 hnil]
    exact ⟨rfl, rfl⟩

theorem marker_selects_section_witness :
    exampleFiles "comment.shader".toList
        = some ("#shader vertex\na\n".toList ++ "#shader fragment // colours".toList
            ++ '\n' :: "b\nc\n".toList)
      ∧ contains "#shader fragment // colours".toList "#shader".toList
      ∧ contains "#shader fragment // colours".toList "fragment".toList
      ∧ ¬ contains "#shader fragment // colours".toList "vertex".toList
      ∧ ((localsAtReturn exampleFiles "comment_marker.shader".toList).shaderType
            = ShaderType.FRAGMENT
          ∧ ParseShader exampleFiles "comment.shader".toList
            = ⟨(ParseShader exampleFiles "comment_head.shader".toList).VertexShaderSource,
               (ParseShader exampleFiles "comment_head.shader".toList).FragmentShaderSource
                  ++ unlines (lines "b\nc\n".toList)⟩)
      ∧ ParseShader exampleFiles "comment.shader".toList = ⟨"a\n".toList, "b\nc\n".toList⟩ :=
  ⟨by decide, by decide, by decide, by decide,
    (marker_selects_section exampleFiles "comment.shader".toList "comment_head.shader".toList
      "comment_marker.shader".toList "#shader vertex\na\n".toList
      "#shader fragment // colours".toList "b\nc\n".toList (by decide) (by decide) (by decide)
      (by decide) (by decide) (by decide) (by decide)).2 (by decide) (by decide),
    by decide⟩

/-- C3 fails as stated: the line `#shader vertex fragment` contains `#shader`
and `fragment`, yet after it the active section is VERTEX and the following
line `foo` is appended to the vertex blob, not to the fragment blob. -/
theorem fragment_marker_not_always_fragment :
    contains "#shader vertex fragment".toList "#shader".toList
      ∧ contains "#shader vertex fragment".toList "fragment".toList
      ∧ exampleFiles "precedence_marker.shader".toList
          = some ("#shader vertex fragment".toList ++ ['\n'])
      ∧ (localsAtReturn exampleFiles "precedence_marker.shader".toList).shaderType
          = ShaderType.VERTEX
      ∧ (localsAtReturn exampleFiles "precedence_marker.shader".toList).shaderType
          ≠ ShaderType.FRAGMENT
      ∧ exampleFiles "precedence.shader".toList
          = some ("#shader vertex fragment".toList ++ '\n' :: "foo\n".toList)
      ∧ ParseShader exampleFiles "precedence.shader".toList = ⟨"foo\n".toList, []⟩ :=
  ⟨by decide, by decide, by decide, by decide, by decide, by decide, by decide⟩

/-- C4: marker lines contribute no text to either blob.  Whatever the file
system and the path, no line of the vertex blob and no line of the fragment
blob returned by `ParseShader` contains `#shader`. -/
theorem ParseShader_blobs_hold_no_marker (fs : FileSystem) (filepath : List Char) :
    (∀ l ∈ lines (ParseShader fs filepath).VertexShaderSource,
        ¬ contains l "#shader".toList)
      ∧ (∀ l ∈ lines (ParseShader fs filepath).FragmentShaderSource,
        ¬ contains l "#shader".toList) :=
  ⟨fun l hl => cleanBlob_lines _ l (ParseShader_clean fs filepath).1 hl,
   fun l hl => cleanBlob_lines _ l (ParseShader_clean fs filepath).2 hl⟩

theorem ParseShader_blobs_hold_no_marker_witness :
    ParseShader exampleFiles "mixed.shader".toList = ⟨"foo\n".toList, "bar\n".toList⟩
      ∧ (∀ l ∈ lines (ParseShader exampleFiles "mixed.shader".toList).VertexShaderSource,
          ¬ contains l "#shader".toList)
      ∧ (∀ l ∈ lines (ParseShader exampleFiles "mixed.shader".toList).FragmentShaderSource,
          ¬ contains l "#shader".toList) :=
  ⟨by decide, ParseShader_blobs_hold_no_marker exampleFiles "mixed.shader".toList⟩

/-- C5: repeated sections append.  For a text `d1` of complete lines and a text
`d2` whose first line is a section marker (it contains `#shader` and `vertex`
or `fragment`), the vertex blob of `d1` followed by `d2` is the vertex blob of
`d1` followed by the vertex blob of `d2`, and likewise for the fragment
blobs. -/
theorem ParseShader_append (fs : FileSystem) (p p1 p2 d1 d2 : List Char)
    (hp : fs p = some (d1 ++ d2)) (hp1 : fs p1 = some d1) (hp2 : fs p2 = some d2)
    (hd1 : completeLines d1)
    (hd2 : ∃ m, (lines d2).head? = some m ∧ recognizedMarker m) :
    ParseShader fs p =
      ⟨(ParseShader fs p1).VertexShaderSource ++ (ParseShader fs p2).VertexShaderSource,
       (ParseShader fs p1).FragmentShaderSource
          ++ (ParseShader fs p2).FragmentShaderSource⟩ := by
  obtain ⟨m, hm, hrec⟩ := hd2
  rw [ParseShader_of_contents fs p _ hp, ParseShader_of_contents fs p1 _ hp1,
    ParseShader_of_contents fs p2 _ hp2, lines_append_of_complete d1 d2 hd1, run_append]
  cases hl : lines d2 with
  | nil => rw [hl] at hm; simp at hm
  | cons x rest =>
    rw [hl] at hm
    simp only [List.head?_cons, Option.some.injEq] at hm
    subst hm
    rcases hr : run (lines d1) start with ⟨ty1, v1, f1⟩
    rw [run_cons, run_cons, step_recognized ty1 v1 f1 x hrec, start,
      step_recognized ShaderType.NONE [] [] x hrec, run_shift rest (markerSection x) v1 f1]

theorem ParseShader_append_witness :
    exampleFiles "repeat.shader".toList
        = some ("#shader vertex\na\n#shader fragment\nb\n".toList
            ++ "#shader vertex\nc\n".toList)
      ∧ completeLines "#shader vertex\na\n#shader fragment\nb\n".toList
      ∧ (∃ m, (lines "#shader vertex\nc\n".toList).head? = some m ∧ recognizedMarker m)
      ∧ ParseShader exampleFiles "repeat.shader".toList
        = ⟨(ParseShader exampleFiles "first.shader".toList).VertexShaderSource
            ++ (ParseShader exampleFiles "second.shader".toList).VertexShaderSource,
           (ParseShader exampleFiles "first.shader".toList).FragmentShaderSource
            ++ (ParseShader exampleFiles "second.shader".toList).FragmentShaderSource⟩
      ∧ ParseShader exampleFiles "repeat.shader".toList = ⟨"a\nc\n".toList, "b\n".toList⟩ :=
  ⟨by decide, by decide, ⟨"#shader vertex".toList, by decide, by decide⟩,
    ParseShader_append exampleFiles "repeat.shader".toList "first.shader".toList
      "second.shader".toList
      "#shader vertex\na\n#shader fragment\nb\n".toList "#shader vertex\nc\n".toList
      (by decide) (by decide) (by decide) (by decide)
      ⟨"#shader vertex".toList, by decide, by decide⟩,
    by decide⟩

/-- C6: the lines before the first recognized marker are discarded.  When
`pre` is a text of complete lines none of which contains `#shader` together
with `vertex` or `fragment`, a file holding `pre` followed by `rest` is parsed
to the same pair of blobs as a file holding `rest` alone. -/
theorem ParseShader_drops_leading_lines (fs : FileSystem) (p q pre rest : List Char)
    (hp : fs p = some (pre ++ rest)) (hq : fs q = some rest)
    (hpre : completeLines pre)
    (h : ∀ l ∈ lines pre, ¬ recognizedMarker l) :
    ParseShader fs p = ParseShader fs q := by
  rw [ParseShader_of_contents fs p _ hp, ParseShader_of_contents fs q _ hq,
    lines_append_of_complete pre rest hpre, run_append, start,
    run_plain_none (lines pre) [] [] h]

theorem ParseShader_drops_leading_lines_witness :
    exampleFiles "junk.shader".toList
        = some ("junk\n".toList ++ "#shader vertex\nfoo\n".toList)
      ∧ exampleFiles "nojunk.shader".toList = some "#shader vertex\nfoo\n".toList
      ∧ completeLines "junk\n".toList
      ∧ (∀ l ∈ lines "junk\n".toList, ¬ recognizedMarker l)
      ∧ ParseShader exampleFiles "junk.shader".toList
          = ParseShader exampleFiles "nojunk.shader".toList
      ∧ ParseShader exampleFiles "junk.shader".toList = ⟨"foo\n".toList, []⟩ :=
  ⟨by decide, by decide, by decide, by decide,
    ParseShader_drops_leading_lines exampleFiles "junk.shader".toList "nojunk.shader".toList
      "junk\n".toList "#shader vertex\nfoo\n".toList
      (by decide) (by decide) (by decide) (by decide),
    by decide⟩

/-- C7: when no line of the file contains `#shader`, `ParseShader` returns an
empty vertex blob and an empty fragment blob. -/
theorem ParseShader_no_marker (fs : FileSystem) (filepath text : List Char)
    (hopen : fs filepath = some text)
    (h : ∀ l ∈ lines text, ¬ contains l "#shader".toList) :
    ParseShader fs filepath = ⟨[], []⟩ := by
  rw [ParseShader_of_contents fs filepath text hopen, start,
    run_plain_none (lines text) [] [] (fun l hl hm => h l hl hm.1)]

theorem ParseShader_no_marker_witness :
    exampleFiles "plain.txt".toList = some "int x;\nvoid main();\n".toList
      ∧ (∀ l ∈ lines "int x;\nvoid main();\n".toList, ¬ contains l "#shader".toList)
      ∧ ParseShader exampleFiles "plain.txt".toList = ⟨[], []⟩ :=
  ⟨by decide, by decide,
    ParseShader_no_marker exampleFiles "plain.txt".toList "int x;\nvoid main();\n".toList
      (by decide) (by decide)⟩

/-- C8: the output is a fixed point of re-assembly.  When `ParseShader` returns
the blobs `v` and `f` for the file `p`, and the file `q` holds the line
`#shader vertex`, then `v`, then the line `#shader fragment`, then `f`,
`ParseShader` returns the same pair for `q`. -/
theorem ParseShader_reassembly (fs : FileSystem) (p q : List Char)
    (hq : fs q = some ("#shader vertex\n".toList ++ (ParseShader fs p).VertexShaderSource
            ++ "#shader fragment\n".toList ++ (ParseShader fs p).FragmentShaderSource)) :
    ParseShader fs q = ParseShader fs p := by
  obtain ⟨⟨vl, hv, hvl⟩, ⟨fl, hf, hfl⟩⟩ := ParseShader_clean fs p
  rw [ParseShader_of_contents fs q _ hq]
  have htext : "#shader vertex\n".toList ++ (ParseShader fs p).VertexShaderSource
        ++ "#shader fragment\n".toList ++ (ParseShader fs p).FragmentShaderSource
      = unlines ("#shader vertex".toList :: vl ++ "#shader fragment".toList :: fl) := by
    rw [hv, hf, unlines_append]
    simp [unlines]
  have hclean : ∀ l ∈ "#shader vertex".toList :: vl ++ "#shader fragment".toList :: fl,
      '\n' ∉ l := by
    intro l hl
    rcases List.mem_append.mp hl with h | h
    · rcases List.mem_cons.mp h with h | h
      · subst h; decide
      · exact (hvl l h).1
    · rcases List.mem_cons.mp h with h | h
      · subst h; decide
      · exact (hfl l h).1
  have e1 : step start "#shader vertex".toList = (ShaderType.VERTEX, [], []) :=
    step_marker_vertex ShaderType.NONE [] [] _ (by decide) (by decide)
  have e2 : step (ShaderType.VERTEX, [] ++ unlines vl, []) "#shader fragment".toList
      = (ShaderType.FRAGMENT, [] ++ unlines vl, []) :=
    step_marker_fragment ShaderType.VERTEX _ [] _ (by decide) (by decide) (by decide)
  rw [htext, lines_unlines _ hclean, run_append, run_cons "#shader fragment".toList fl,
    run_cons "#shader vertex".toList vl, e1,
    run_plain_vertex vl [] [] (fun l hl => (hvl l hl).2), e2,
    run_plain_fragment fl _ [] (fun l hl => (hfl l hl).2)]
  have hv2 := hv
  have hf2 := hf
  cases hps : ParseShader fs p with
  | mk v f =>
    rw [hps] at hv2 hf2
    simp only at hv2 hf2
    simp [hv2, hf2]

theorem ParseShader_reassembly_witness :
    ParseShader exampleFiles "swapped.shader".toList = ⟨"a\n".toList, "b\n".toList⟩
      ∧ exampleFiles "reassembled.shader".toList
          = some ("#shader vertex\n".toList ++ "a\n".toList
              ++ "#shader fragment\n".toList ++ "b\n".toList)
      ∧ ParseShader exampleFiles "reassembled.shader".toList
          = ParseShader exampleFiles "swapped.shader".toList :=
  ⟨by decide, by decide,
    ParseShader_reassembly exampleFiles "swapped.shader".toList "reassembled.shader".toList
      (by decide)⟩

/-- C9: marker precedence.  A line `m` that contains `#shader` and both
`vertex` and `fragment` makes the active section VERTEX: the lines of the text
`blk` that follows it, none of which contains `#shader`, are appended to the
vertex blob, and the fragment blob stays as it was before `m`. -/
theorem marker_with_both_selects_vertex (fs : FileSystem) (p q r pre m blk : List Char)
    (hp : fs p = some (pre ++ m ++ '\n' :: blk)) (hq : fs q = some pre)
    (hr : fs r = some (pre ++ m ++ ['\n']))
    (hpre : completeLines pre) (hm : '\n' ∉ m)
    (h1 : contains m "#shader".toList) (h2 : contains m "vertex".toList)
    (_h3 : contains m "fragment".toList)
    (hblk : ∀ l ∈ lines blk, ¬ contains l "#shader".toList) :
    (localsAtReturn fs r).shaderType = ShaderType.VERTEX
      ∧ (ParseShader fs p).VertexShaderSource
          = (ParseShader fs q).VertexShaderSource ++ unlines (lines blk)
      ∧ (ParseShader fs p).FragmentShaderSource = (ParseShader fs q).FragmentShaderSource := by
  have hnil : ∀ l ∈ lines ([] : List Char), ¬ contains l "#shader".toList := by
    simp [lines]
  rw [shaderType_localsAtReturn fs r _ hr, ParseShader_of_contents fs p _ hp,
    ParseShader_of_contents fs q _ hq,
    run_marker_block_vertex pre m blk hpre hm h1 h2 hblk,
    run_marker_block_vertex pre m [] hpre hm h1 h2 hnil]
  exact ⟨rfl, rfl, rfl⟩

theorem marker_with_both_selects_vertex_witness :
    exampleFiles "both.shader".toList
        = some ("#shader fragment\na\n".toList ++ "#shader fragment vertex".toList
            ++ '\n' :: "b\n".toList)
      ∧ contains "#shader fragment vertex".toList "#shader".toList
      ∧ contains "#shader fragment vertex".toList "vertex".toList
      ∧ contains "#shader fragment vertex".toList "fragment".toList
      ∧ ((localsAtReturn exampleFiles "both_marker.shader".toList).shaderType
            = ShaderType.VERTEX
          ∧ (ParseShader exampleFiles "both.shader".toList).VertexShaderSource
            = (ParseShader exampleFiles "both_head.shader".toList).VertexShaderSource
                ++ unlines (lines "b\n".toList)
          ∧ (ParseShader exampleFiles "both.shader".toList).FragmentShaderSource
            = (ParseShader exampleFiles "both_head.shader".toList).FragmentShaderSource)
      ∧ ParseShader exampleFiles "both.shader".toList = ⟨"b\n".toList, "a\n".toList⟩ :=
  ⟨by decide, by decide, by decide, by decide,
    marker_with_both_selects_vertex exampleFiles "both.shader".toList
      "both_head.shader".toList "both_marker.shader".toList
      "#shader fragment\na\n".toList "#shader fragment vertex".toList "b\n".toList
      (by decide) (by decide) (by decide) (by decide) (by decide) (by decide) (by decide)
      (by decide) (by decide),
    by decide⟩

/-- C10: a line that contains `#shader` but neither `vertex` nor `fragment` is
dropped and leaves the active section as it was.  For a text `a` of complete
lines and any text `b`, a file holding `a`, then that line, then `b` is parsed
to the same pair of blobs as a file holding `a` followed directly by `b`. -/
theorem ParseShader_unrecognized_marker (fs : FileSystem) (p q a line b : List Char)
    (hp : fs p = some (a ++ line ++ '\n' :: b)) (hq : fs q = some (a ++ b))
    (ha : completeLines a) (hline : '\n' ∉ line)
    (h1 : contains line "#shader".toList) (h2 : ¬ contains line "vertex".toList)
    (h3 : ¬ contains line "fragment".toList) :
    ParseShader fs p = ParseShader fs q := by
  rw [ParseShader_of_contents fs p _ hp, ParseShader_of_contents fs q _ hq,
    List.append_assoc, lines_append_of_complete a _ ha, lines_append_of_complete a b ha,
    lines_line_cons line b hline, run_append, run_append, run_cons,
    step_marker_other _ _ h1 h2 h3]

theorem ParseShader_unrecognized_marker_witness :
    exampleFiles "geometry.shader".toList
        = some ("#shader vertex\nx\n".toList ++ "#shader geometry".toList
            ++ '\n' :: "y\n".toList)
      ∧ exampleFiles "nogeometry.shader".toList
        = some ("#shader vertex\nx\n".toList ++ "y\n".toList)
      ∧ contains "#shader geometry".toList "#shader".toList
      ∧ ¬ contains "#shader geometry".toList "vertex".toList
      ∧ ¬ contains "#shader geometry".toList "fragment".toList
      ∧ ParseShader exampleFiles "geometry.shader".toList
          = ParseShader exampleFiles "nogeometry.shader".toList
      ∧ ParseShader exampleFiles "geometry.shader".toList = ⟨"x\ny\n".toList, []⟩ :=
  ⟨by decide, by decide, by decide, by decide, by decide,
    ParseShader_unrecognized_marker exampleFiles "geometry.shader".toList
      "nogeometry.shader".toList "#shader vertex\nx\n".toList
      "#shader geometry".toList "y\n".toList (by decide) (by decide) (by decide) (by decide)
      (by decide) (by decide) (by decide),
    by decide⟩

end ShaderParser
